import Mathlib

/-!
Verification of the araki provisioning tool (Rust sources under `src/`)
against its natural-language specification.

The Rust code is shallowly embedded: filesystem state is passed
explicitly, external processes (git clone, the `pixi` installer) and the
remote HTTP API are modelled by explicit oracles/scripted responses, and
fallible operations return an explicit error component.
-/

namespace Araki

/-- Kinds of I/O errors distinguished by the Rust code
(`std::io::ErrorKind`): the code only ever branches on `NotFound` and
surfaces `AlreadyExists`; every other kind behaves uniformly. -/
inductive IOErr where
  | notFound
  | alreadyExists
  | permissionDenied
  | other
deriving DecidableEq, Repr

/-! ## Filesystem model for `LockSpec::hardlink_to` (src/cli/common.rs:200-214)

A filesystem is the list of existing file paths; a path is the directory
joined with a file name.  `hard_link src dst` mirrors POSIX `link(2)` as
used by `std::fs::hard_link`: it fails with `AlreadyExists` when the
destination exists, with `NotFound` when the source is missing, and
otherwise creates the destination entry.  `remove_file` deletes an
existing entry and fails with `NotFound` otherwise. -/

abbrev FS := List String

/-- Path of the lock file (`pixi.lock`) inside a directory. -/
def lockPath (dir : String) : String := dir ++ "/pixi.lock"

/-- Path of the spec file (`pixi.toml`) inside a directory. -/
def specPath (dir : String) : String := dir ++ "/pixi.toml"

/-- Model of `std::fs::hard_link` on the model filesystem. -/
def hard_link (src dst : String) (fs : FS) : FS × Option IOErr :=
  if dst ∈ fs then (fs, some IOErr.alreadyExists)
  else if src ∈ fs then (dst :: fs, none)
  else (fs, some IOErr.notFound)

/-- Model of `std::fs::remove_file` on the model filesystem. -/
def remove_file (p : String) (fs : FS) : FS × Option IOErr :=
  if p ∈ fs then (fs.erase p, none) else (fs, some IOErr.notFound)

/-- Model of `LockSpec::hardlink_to` (src/cli/common.rs:200-214): link the lock
file into `toDir` first, then the spec file; if the second link fails,
attempt to remove the first link (a removal failure other than
`NotFound` is only logged) and return the second link's error. -/
def hardlink_to (selfDir toDir : String) (fs : FS) : FS × Option IOErr :=
  match hard_link (lockPath selfDir) (lockPath toDir) fs with
  | (fs1, some e) => (fs1, some e)
  | (fs1, none) =>
    match hard_link (specPath selfDir) (specPath toDir) fs1 with
    | (fs2, none) => (fs2, none)
    | (fs2, some err) =>
      match remove_file (lockPath toDir) fs2 with
      | (fs3, _) => (fs3, some err)

/-! Distinctness of the two tracked file names inside and across
directories. -/

theorem string_append_cancel_left {a b c : String} (h : a ++ b = a ++ c) : b = c := by
  have hd : b.data = c.data := by
    have h2 := congrArg String.data h
    simp only [String.data_append] at h2
    exact List.append_cancel_left h2
  cases b
  cases c
  exact congrArg String.mk hd

theorem lockPath_ne_specPath (d e : String) : lockPath d ≠ specPath e := by
  intro h
  have hd : (lockPath d).data.getLast? = (specPath e).data.getLast? := by rw [h]
  have h1 : (lockPath d).data.getLast? = some 'k' := by
    show (d.data ++ "/pixi.lock".data).getLast? = some 'k'
    rw [List.getLast?_append]
    rfl
  have h2 : (specPath e).data.getLast? = some 'l' := by
    show (e.data ++ "/pixi.toml".data).getLast? = some 'l'
    rw [List.getLast?_append]
    rfl
  rw [h1, h2] at hd
  exact absurd hd (by decide)

theorem specPath_ne_lockPath (d e : String) : specPath d ≠ lockPath e :=
  fun h => lockPath_ne_specPath e d h.symm

/-! Exhaustive case analysis of `hardlink_to`. -/

theorem hardlink_to_dst_lock_exists (s t : String) (fs : FS)
    (h : lockPath t ∈ fs) :
    hardlink_to s t fs = (fs, some IOErr.alreadyExists) := by
  simp [hardlink_to, hard_link, h]

theorem hardlink_to_src_lock_missing (s t : String) (fs : FS)
    (h1 : lockPath t ∉ fs) (h2 : lockPath s ∉ fs) :
    hardlink_to s t fs = (fs, some IOErr.notFound) := by
  simp [hardlink_to, hard_link, h1, h2]

theorem hardlink_to_dst_spec_exists (s t : String) (fs : FS)
    (h1 : lockPath t ∉ fs) (h2 : lockPath s ∈ fs) (h3 : specPath t ∈ fs) :
    hardlink_to s t fs = (fs, some IOErr.alreadyExists) := by
  have hmem : specPath t ∈ lockPath t :: fs := List.mem_cons_of_mem _ h3
  have hrm : lockPath t ∈ lockPath t :: fs := List.mem_cons_self _ _
  simp [hardlink_to, hard_link, remove_file, h1, h2, hmem, hrm]

theorem hardlink_to_src_spec_missing (s t : String) (fs : FS)
    (h1 : lockPath t ∉ fs) (h2 : lockPath s ∈ fs) (h3 : specPath t ∉ fs)
    (h4 : specPath s ∉ fs) :
    hardlink_to s t fs = (fs, some IOErr.notFound) := by
  have hne1 : specPath t ∉ lockPath t :: fs := by
    intro hmem
    rcases List.mem_cons.mp hmem with h | h
    · exact specPath_ne_lockPath t t h
    · exact h3 h
  have hne2 : specPath s ∉ lockPath t :: fs := by
    intro hmem
    rcases List.mem_cons.mp hmem with h | h
    · exact specPath_ne_lockPath s t h
    · exact h4 h
  have hrm : lockPath t ∈ lockPath t :: fs := List.mem_cons_self _ _
  simp [hardlink_to, hard_link, remove_file, h1, h2, hne1, hne2, hrm]

theorem hardlink_to_success (s t : String) (fs : FS)
    (h1 : lockPath t ∉ fs) (h2 : lockPath s ∈ fs) (h3 : specPath t ∉ fs)
    (h4 : specPath s ∈ fs) :
    hardlink_to s t fs = (specPath t :: lockPath t :: fs, none) := by
  have hne1 : specPath t ∉ lockPath t :: fs := by
    intro hmem
    rcases List.mem_cons.mp hmem with h | h
    · exact specPath_ne_lockPath t t h
    · exact h3 h
  have hmem2 : specPath s ∈ lockPath t :: fs := List.mem_cons_of_mem _ h4
  simp [hardlink_to, hard_link, h1, h2, hne1, hmem2]

/-! ## The repo-argument parsers (src/cli/clone.rs:93-117, src/cli/get.rs:73-97)

Both files run a regex with `captures`, i.e. leftmost-first matching with
greedy quantifiers, unanchored on the left.  The pattern is

`((?<protocol>(git\+)?https?://)?(?<domain>github\.com)/)?((?<org>CLS)/)?(?<repo>CLS)`

where `CLS` is `[-a-zA-Z0-9_.]{1,100}` in clone.rs (with a trailing `$`
on the repo group) and `\w+` in get.rs (no anchor).  The embedding below
implements exactly this backtracking search: the optional prefix group
unfolds into five literal alternatives tried in the regex's preference
order, the character-class repetitions are greedy runs (a run followed
by `/` has no shorter viable candidate because every proper prefix of a
run is followed by another class character, not `/`), and `findMatch`
tries successive start positions left to right. -/

/-- Character class `[-a-zA-Z0-9_.]` of clone.rs (ASCII). -/
def isRepoChar (c : Char) : Bool := c.isAlphanum || c = '-' || c = '_' || c = '.'

/-- Character class `\w` of get.rs (modelled over ASCII). -/
def isWordChar (c : Char) : Bool := c.isAlphanum || c = '_'

/-- Greedy run of class characters: returns the maximal prefix
satisfying `p` and the remaining suffix. -/
def classRun (p : Char → Bool) : List Char → List Char × List Char
  | [] => ([], [])
  | c :: cs =>
    if p c then
      let r := classRun p cs
      (c :: r.1, r.2)
    else ([], c :: cs)

/-- Strip a literal from the front of the input, or fail. -/
def chomp : List Char → List Char → Option (List Char)
  | [], s => some s
  | _ :: _, [] => none
  | q :: qs, c :: cs => if c = q then chomp qs cs else none

/-- The named captures of the repo-argument regex. -/
structure Caps where
  protocol : Option String
  domain : Option String
  org : Option String
  repo : String
deriving DecidableEq, Repr

/-- The five concrete ways the optional `protocol`/`domain` group can
match, in the regex's preference order (protocol present with `git+`
and `s` preferred, then without, then domain only), paired with the
resulting `protocol` and `domain` captures.  The final fallback (group
absent) is the base case of `tryOpts`. -/
def prefixOpts : List (String × Option String × Option String) :=
  [("git+https://github.com/", some "git+https://", some "github.com"),
   ("git+http://github.com/", some "git+http://", some "github.com"),
   ("https://github.com/", some "https://", some "github.com"),
   ("http://github.com/", some "http://", some "github.com"),
   ("github.com/", none, some "github.com")]

/-- Try the prefix alternatives in order, falling back to a match with
the optional group absent; `tail` matches `((org)/)?(repo...)` on the
remaining input. -/
def tryOpts (tail : List Char → Option (Option String × String)) :
    List (String × Option String × Option String) → List Char → Option Caps
  | [], cs => (tail cs).map (fun r => ⟨none, none, r.1, r.2⟩)
  | (lit, pr, dom) :: rest, cs =>
    match chomp lit.data cs with
    | some cs2 =>
      match tail cs2 with
      | some r => some ⟨pr, dom, r.1, r.2⟩
      | none => tryOpts tail rest cs
    | none => tryOpts tail rest cs

/-- Leftmost match: try each start position from the left. -/
def findMatch (matchOne : List Char → Option Caps) : List Char → Option Caps
  | [] => matchOne []
  | c :: cs =>
    match matchOne (c :: cs) with
    | some r => some r
    | none => findMatch matchOne cs

namespace Clone

/-- Suffix pattern `((?<org>[-a-zA-Z0-9_.]{1,100})/)?(?<repo>[-a-zA-Z0-9_.]{1,100}$)`
of clone.rs: anchored on the right. -/
def tailMatch (cs : List Char) : Option (Option String × String) :=
  let r := classRun isRepoChar cs
  match r.2 with
  | [] =>
    if 1 ≤ r.1.length ∧ r.1.length ≤ 100 then some (none, String.mk r.1) else none
  | '/' :: rest2 =>
    if 1 ≤ r.1.length ∧ r.1.length ≤ 100 then
      let r2 := classRun isRepoChar rest2
      match r2.2 with
      | [] =>
        if 1 ≤ r2.1.length ∧ r2.1.length ≤ 100 then
          some (some (String.mk r.1), String.mk r2.1)
        else none
      | _ => none
    else none
  | _ => none

/-- Struct `RemoteRepo` of src/cli/clone.rs:26-32. -/
structure RemoteRepo where
  org : Option String
  repo : String
  domain : Option String
  protocol : Option String
deriving DecidableEq, Repr

/-- Model of `parse_repo_arg` of src/cli/clone.rs:93-117.  NOTE: the source calls
`RemoteRepo::new(org, repo, domain, protocol)` with the `protocol`
capture in the `domain` position and the `domain` capture in the
`protocol` position (clone.rs:110-115), so the two fields are swapped in
the constructed value; the embedding reproduces that argument order. -/
def parse_repo_arg (env : String) : Except String RemoteRepo :=
  match findMatch (tryOpts tailMatch prefixOpts) env.data with
  | none => Except.error ("Unrecognized format for repo name or URL: " ++ env ++ ".")
  | some caps => Except.ok ⟨caps.org, caps.repo, caps.protocol, caps.domain⟩

def RemoteRepo.get_org (r : RemoteRepo) : String := r.org.getD "nos-environments"

def RemoteRepo.get_repo (r : RemoteRepo) : String := r.repo

def RemoteRepo.get_protocol (r : RemoteRepo) : String := r.protocol.getD "https://"

def RemoteRepo.get_domain (r : RemoteRepo) : String := r.domain.getD "github.com"

def RemoteRepo.as_url (r : RemoteRepo) : String :=
  r.get_protocol ++ r.get_domain ++ "/" ++ r.get_org ++ "/" ++ r.get_repo

def RemoteRepo.as_ssh_url (r : RemoteRepo) : String :=
  "git@" ++ r.get_domain ++ ":" ++ r.get_org ++ "/" ++ r.get_repo ++ ".git"

end Clone

namespace Get

/-- Suffix pattern `((?<org>\w+)/)?(?<repo>\w+)` of get.rs: unanchored. -/
def tailMatch (cs : List Char) : Option (Option String × String) :=
  let r := classRun isWordChar cs
  if r.1.length = 0 then none
  else
    match r.2 with
    | '/' :: rest2 =>
      let r2 := classRun isWordChar rest2
      if r2.1.length = 0 then some (none, String.mk r.1)
      else some (some (String.mk r.1), String.mk r2.1)
    | _ => some (none, String.mk r.1)

/-- Struct `RemoteRepo` of src/cli/get.rs:19-25. -/
structure RemoteRepo where
  org : Option String
  repo : String
  domain : Option String
  protocol : Option String
deriving DecidableEq, Repr

/-- Model of `parse_repo_arg` of src/cli/get.rs:73-97 (fields assigned by name,
no swap here). -/
def parse_repo_arg (env : String) : Except String RemoteRepo :=
  match findMatch (tryOpts tailMatch prefixOpts) env.data with
  | none => Except.error "Unrecognized format for repo name or URL."
  | some caps =>
    Except.ok { protocol := caps.protocol, domain := caps.domain,
                org := caps.org, repo := caps.repo }

def RemoteRepo.get_org (r : RemoteRepo) : String := r.org.getD "openteams-ai"

def RemoteRepo.get_repo (r : RemoteRepo) : String := r.repo

def RemoteRepo.get_protocol (r : RemoteRepo) : String := r.protocol.getD "https://"

def RemoteRepo.get_domain (r : RemoteRepo) : String := r.domain.getD "github.com"

def RemoteRepo.as_url (r : RemoteRepo) : String :=
  r.get_protocol ++ r.get_domain ++ "/" ++ r.get_org ++ "/" ++ r.get_repo

def RemoteRepo.as_ssh_url (r : RemoteRepo) : String :=
  "git@" ++ r.get_domain ++ ":" ++ r.get_org ++ "/" ++ r.get_repo ++ ".git"

end Get

/-! ## Orchestrator state model (src/cli/get.rs:99-214, src/cli/common.rs:18-31,229-297)

The provisioning run touches three persistent locations: the environment
catalog root (`~/.araki/envs`), one subdirectory per environment holding
the two tracked files, and the caller's working directory.  `Entry`
records which tracked files a catalog subdirectory contains; `AFS`
records the root's existence, the catalog, and the working directory
(its own existence plus the two tracked files).  I/O errors other than
the deterministic outcomes modelled here do not occur in this model. -/

/-- Contents of one environment directory in the catalog. -/
structure Entry where
  toml : Bool
  lock : Bool
deriving DecidableEq, Repr

/-- The filesystem state seen by the `get` orchestrator. -/
structure AFS where
  rootExists : Bool
  catalog : List (String × Entry)
  cwdDirExists : Bool
  cwdToml : Bool
  cwdLock : Bool
deriving DecidableEq, Repr

/-- Model of `get_default_araki_envs_dir` (src/cli/common.rs:18-31): creates the
catalog root when it does not exist, then returns its path. -/
def get_default_araki_envs_dir (fs : AFS) : AFS :=
  { fs with rootExists := true }

/-- Model of `get_local_envs` (src/cli/common.rs:50-69): the names of the
catalog's subdirectories. -/
def get_local_envs (fs : AFS) : List String :=
  fs.catalog.map (fun e => e.1)

def catalogLookup (name : String) (fs : AFS) : Option Entry :=
  fs.catalog.lookup name

/-- Model of `LockSpec::files_exist` (src/cli/common.rs:242-244). -/
def files_exist (e : Entry) : Bool := e.lock && e.toml

def noEnvMsg (name : String) : String :=
  "No environment named " ++ name ++ " exists in the araki envs dir."

/-- Model of `LockSpec::from_env_name` (src/cli/common.rs:229-241): resolves the
name under the catalog root obtained from `get_default_araki_envs_dir`
(which creates the root as a side effect), then checks that both
tracked files exist. -/
def from_env_name (name : String) (fs : AFS) : AFS × Except String Unit :=
  let fs1 := get_default_araki_envs_dir fs
  match catalogLookup name fs1 with
  | some e => if files_exist e then (fs1, Except.ok ()) else (fs1, Except.error (noEnvMsg name))
  | none => (fs1, Except.error (noEnvMsg name))

/-- Model of `LockSpec::from_directory` (src/cli/common.rs:215-228) applied to
the working directory: a pure existence check, no writes. -/
def from_directory_cwd (fs : AFS) : AFS × Except String Unit :=
  (fs, if fs.cwdLock && fs.cwdToml then Except.ok () else
    Except.error "No lockspec files found in the directory.")

/-- Model of `remove_dir_all` of a catalog entry (get.rs:154, and
`LockSpec::remove_lockspec_and_parent_dir`, common.rs:277-284). -/
def catalogErase (name : String) (fs : AFS) : AFS :=
  { fs with catalog := fs.catalog.eraseP (fun e => e.1 == name) }

/-- Model of `LockSpec::hardlink_to` from the validated catalog entry `e` into
the working directory (the concrete instance of `hardlink_to` used by
`get::execute`): link `pixi.lock` first, then `pixi.toml`, undoing the
first link if the second fails. -/
def hardlink_entry_to_cwd (e : Entry) (fs : AFS) : AFS × Option IOErr :=
  if fs.cwdLock then (fs, some IOErr.alreadyExists)
  else if e.lock then
    let fs1 := { fs with cwdLock := true }
    if fs1.cwdToml then ({ fs1 with cwdLock := false }, some IOErr.alreadyExists)
    else if e.toml then ({ fs1 with cwdToml := true }, none)
    else ({ fs1 with cwdLock := false }, some IOErr.notFound)
  else (fs, some IOErr.notFound)

/-- Model of `LockSpec::remove_files` on the working directory in the
deterministic model: removing a present file succeeds and an absent
file is already `NotFound`-success, so both flags end up cleared. -/
def remove_files_cwd (fs : AFS) : AFS :=
  { fs with cwdToml := false, cwdLock := false }

/-- Outcomes of the external collaborators of one `get` run: whether
`git_clone` succeeds, what the cloned directory contains, and whether
the `pixi install` subprocess exits successfully (a spawn failure and a
non-zero exit are treated identically at get.rs:190). -/
structure ExecEnv where
  clone_ok : Bool
  clone_result : Entry
  install_ok : Bool
deriving DecidableEq, Repr

/-- Model of `execute` of src/cli/get.rs:99-214.  Returns the final filesystem
state and `some code` when the run terminates through `process::exit`
(`none` = normal completion, exit status 0).  The `exists()` pre-checks
at get.rs:108-115 abort only when `std::fs::exists` returns `Err`,
which does not happen in this model, so they never fire. -/
def execute (arg : String) (fs0 : AFS) (env : ExecEnv) : AFS × Option Nat :=
  match Get.parse_repo_arg arg with
  | Except.error _ => (fs0, some 1)
  | Except.ok remote =>
    let fs1 := get_default_araki_envs_dir fs0
    let cloneStep : AFS × Bool × Option Nat :=
      if (get_local_envs fs1).contains remote.get_repo then (fs1, false, none)
      else if env.clone_ok then
        ({ fs1 with catalog := (remote.get_repo, env.clone_result) :: fs1.catalog },
         true, none)
      else (fs1, false, some 1)
    match cloneStep with
    | (fs2, _, some c) => (fs2, some c)
    | (fs2, did_clone, none) =>
      match from_env_name remote.repo fs2 with
      | (fs3, Except.error _) =>
        (if did_clone then catalogErase remote.repo fs3 else fs3, some 1)
      | (fs3, Except.ok ()) =>
        let e := (catalogLookup remote.repo fs3).getD ⟨false, false⟩
        match hardlink_entry_to_cwd e fs3 with
        | (fs4, some _) =>
          (if did_clone then catalogErase remote.repo fs4 else fs4, some 1)
        | (fs4, none) =>
          if env.install_ok then (fs4, none)
          else
            let fs5 := if did_clone then catalogErase remote.repo fs4 else fs4
            let fs6 := if fs5.cwdLock && fs5.cwdToml then remove_files_cwd fs5 else fs5
            (fs6, some 1)

/-! ## Device-flow polling (src/backends.rs:251-298)

Each loop iteration sends one token request; the scripted list supplies
the successive JSON responses (`err e` = a response whose `error` field
is `e`; `success tok` = a response without an `error` field, with
`tok` its optional `access_token`).  An exhausted script models a
network failure, on which the code calls `process::exit(1)`.  The sleeps
performed between polls are accumulated in order; the token cache file
is an `Option String` overwritten on success (truncate semantics,
backends.rs:288-293). -/

inductive TokenResp where
  | err (e : String)
  | success (access_token : Option String)
deriving DecidableEq, Repr

inductive PollOutcome where
  | ok
  | fatalExit
  | failed (msg : String)
deriving DecidableEq, Repr

/-- Model of `GitHubBackend::poll_for_token` (src/backends.rs:251-298).  Note
that the recursive calls pass `interval` unchanged: the `slow_down`
branch sleeps `interval + 5` without updating `interval`
(backends.rs:266-268). -/
def poll_for_token (interval : Nat) :
    List TokenResp → List Nat → Option String → List Nat × Option String × PollOutcome
  | [], sleeps, tokenFile => (sleeps, tokenFile, PollOutcome.fatalExit)
  | TokenResp.err e :: rest, sleeps, tokenFile =>
    if e = "authorization_pending" then
      poll_for_token interval rest (sleeps ++ [interval]) tokenFile
    else if e = "slow_down" then
      poll_for_token interval rest (sleeps ++ [interval + 5]) tokenFile
    else if e = "expired_token" then
      (sleeps, tokenFile,
        PollOutcome.failed "The GitHub token araki uses has expired. Please run login again.")
    else if e = "access_denied" then
      (sleeps, tokenFile, PollOutcome.failed "Login cancelled by user.")
    else
      (sleeps, tokenFile,
        PollOutcome.failed ("Error getting araki github app token: " ++ e))
  | TokenResp.success none :: _, sleeps, tokenFile =>
    (sleeps, tokenFile,
      PollOutcome.failed "Unexpected response whil getting a GitHub user access token")
  | TokenResp.success (some tok) :: _, sleeps, _tokenFile =>
    (sleeps, some tok, PollOutcome.ok)

/-! ## Repository existence check (src/backends.rs:81-90)

The response body is JSON; the code deserializes it into a
`HashMap<String, String>` (which succeeds exactly when the body is an
object all of whose values are strings) and returns whether the key
`name` is present.  The HTTP status code of the response is never
inspected. -/

inductive Json where
  | str (s : String)
  | num (n : Int)
  | jbool (b : Bool)
  | null
  | arr (elems : List Json)
  | obj (fields : List (String × Json))

/-- Model of `.json::<HashMap<String, String>>()`: succeeds iff the body is an
object with only string values. -/
def asStringMap : Json → Option (List (String × String))
  | Json.obj fields =>
    fields.mapM (fun kv =>
      match kv.2 with
      | Json.str s => some (kv.1, s)
      | _ => none)
  | _ => none

/-- Model of `GitHubBackend::is_existing_lockspec` (src/backends.rs:81-90),
given the response to `GET /repos/org/name`: the status code is taken
as an argument to record that the code ignores it. -/
def is_existing_lockspec (_status : Nat) (body : Json) : Except String Bool :=
  match asStringMap body with
  | none => Except.error "error decoding response body"
  | some m => Except.ok (m.any (fun kv => kv.1 == "name"))

/-- The JSON body GitHub returns for `GET /repos/org/name` when the
repository does not exist (HTTP 404). -/
def githubNotFoundBody : Json :=
  Json.obj [("message", Json.str "Not Found"),
            ("documentation_url", Json.str "https://docs.github.com/rest"),
            ("status", Json.str "404")]

/-! ## Metadata stamping (src/cli/common.rs:245-276)

The spec file's contents are parsed by the external `toml` crate and
re-serialized on write; the crate is modelled by an abstract
parse/serialize pair over an abstract contents type `α`, required (in
the theorem) to round-trip.  The table itself is concrete. -/

inductive TomlVal where
  | str (s : String)
  | table (t : List (String × TomlVal))

/-- Model of `LockSpec::ensure_araki_metadata` (src/cli/common.rs:245-276):
parse the spec file; if the parse fails, error; if the `araki` key is
present, return without writing (the result is the unchanged input
contents); otherwise insert the `araki` table carrying `lockspec_name`
and rewrite the file with the serializer's output. -/
def ensure_araki_metadata {α : Type} (parse : α → Option (List (String × TomlVal)))
    (dump : List (String × TomlVal) → α) (contents : α) (lockspec_name : String) :
    Except String α :=
  match parse contents with
  | none => Except.error "Unable to parse the specfile as valid toml."
  | some toml_data =>
    if (toml_data.lookup "araki").isSome then Except.ok contents
    else
      Except.ok (dump (toml_data ++
        [("araki", TomlVal.table [("lockspec_name", TomlVal.str lockspec_name)])]))

/-! ## Git-clone credential callback (src/cli/common.rs:75-115)

`git_clone` installs a credentials callback closing over a mutable
`tried_agent` flag.  Each credential request from the git transport is
a `CredReq`; the callback either produces an ssh-agent credential or a
`git2::Error`.  `run_credentials` threads the flag through a sequence
of requests arising within one clone. -/

structure CredReq where
  username_from_url : Option String
  is_ssh_key : Bool
deriving DecidableEq, Repr

inductive CredResult where
  | agent (username : String)
  | failure (msg : String)
deriving DecidableEq, Repr

/-- The credentials closure of `git_clone` (src/cli/common.rs:84-103).
Returns the updated `tried_agent` flag and the result handed to git. -/
def credentials_callback (tried_agent : Bool) (req : CredReq) : Bool × CredResult :=
  match req.username_from_url with
  | none => (tried_agent, CredResult.failure "Unable to get the ssh username from the URL.")
  | some username =>
    if tried_agent then
      (tried_agent, CredResult.failure "Unable to authenticate via ssh.")
    else if req.is_ssh_key then
      (true, CredResult.agent username)
    else
      (tried_agent, CredResult.failure "araki only supports ssh for git interactions.")

/-- The callback invoked on a sequence of credential requests within a
single clone, threading `tried_agent`. -/
def run_credentials : Bool → List CredReq → List CredResult
  | _, [] => []
  | tried, r :: rest =>
    let s := credentials_callback tried r
    s.2 :: run_credentials s.1 rest

def isAgent : CredResult → Bool
  | CredResult.agent _ => true
  | CredResult.failure _ => false

/-- Number of ssh-agent authentication attempts in a result sequence. -/
def agentAttempts (l : List CredResult) : Nat := (l.filter isAgent).length

/-! ## `remove_files` with injected faults (src/cli/common.rs:285-297)

`remove_files` deletes the spec file, then the lock file, treating
`NotFound` as success for each and returning on the first other error.
To express that behavior the removal primitive consults a fault oracle:
`fault p = some k` makes the removal of path `p` fail with kind `k`
(leaving the filesystem unchanged), `fault p = none` gives the
deterministic semantics of `remove_file`. -/

def remove_file_f (fault : String → Option IOErr) (p : String) (fs : FS) :
    FS × Option IOErr :=
  match fault p with
  | some k => (fs, some k)
  | none => remove_file p fs

/-- Second half of `remove_files`: delete the lock file, treating
`NotFound` as success. -/
def remove_lock_file (fault : String → Option IOErr) (dir : String) (fs : FS) :
    FS × Option IOErr :=
  match remove_file_f fault (lockPath dir) fs with
  | (fs2, none) => (fs2, none)
  | (fs2, some e) => if e = IOErr.notFound then (fs2, none) else (fs2, some e)

/-- Model of `LockSpec::remove_files` (src/cli/common.rs:285-297): spec file
first, then lock file; `NotFound` is success, any other error returns
immediately. -/
def remove_files (fault : String → Option IOErr) (dir : String) (fs : FS) :
    FS × Option IOErr :=
  match remove_file_f fault (specPath dir) fs with
  | (fs1, none) => remove_lock_file fault dir fs1
  | (fs1, some e) =>
    if e = IOErr.notFound then remove_lock_file fault dir fs1 else (fs1, some e)

/-! # Claims -/

/-- Claim C2: `hardlink_to` is all-or-nothing.  On success both links
exist in the target directory; on any failure the filesystem is exactly
as before the call (in particular the first link, if it was created, has
been removed again), so the operation never turns a target directory
holding neither or both tracked files into one holding exactly one of
them; a pre-existing destination file surfaces the underlying
`AlreadyExists` error. -/
theorem claim_C2_hardlink_all_or_nothing (s t : String) (fs : FS) :
    ((hardlink_to s t fs).2 = none →
      lockPath t ∈ (hardlink_to s t fs).1 ∧ specPath t ∈ (hardlink_to s t fs).1) ∧
    ((hardlink_to s t fs).2 ≠ none → (hardlink_to s t fs).1 = fs) ∧
    (lockPath t ∈ fs → hardlink_to s t fs = (fs, some IOErr.alreadyExists)) ∧
    (specPath t ∈ fs → lockPath t ∉ fs → lockPath s ∈ fs →
      (hardlink_to s t fs).2 = some IOErr.alreadyExists) ∧
    ((lockPath t ∈ fs ↔ specPath t ∈ fs) →
      (lockPath t ∈ (hardlink_to s t fs).1 ↔ specPath t ∈ (hardlink_to s t fs).1)) := by
  by_cases h1 : lockPath t ∈ fs
  · rw [hardlink_to_dst_lock_exists s t fs h1]
    refine ⟨?_, ?_, ?_, ?_, ?_⟩ <;> simp [h1]
  · by_cases h2 : lockPath s ∈ fs
    · by_cases h3 : specPath t ∈ fs
      · rw [hardlink_to_dst_spec_exists s t fs h1 h2 h3]
        refine ⟨?_, ?_, ?_, ?_, ?_⟩ <;> simp [h1, h3]
      · by_cases h4 : specPath s ∈ fs
        · rw [hardlink_to_success s t fs h1 h2 h3 h4]
          refine ⟨?_, ?_, ?_, ?_, ?_⟩ <;> simp [h1, h3]
        · rw [hardlink_to_src_spec_missing s t fs h1 h2 h3 h4]
          refine ⟨?_, ?_, ?_, ?_, ?_⟩ <;> simp [h1, h3]
    · rw [hardlink_to_src_lock_missing s t fs h1 h2]
      refine ⟨?_, ?_, ?_, ?_, ?_⟩ <;> simp [h1, h2]

/-- Witness for C2 at a concrete filesystem: linking from a source
directory holding both files into an empty destination succeeds and
leaves both tracked files present. -/
theorem claim_C2_witness :
    lockPath "dst" ∈ (hardlink_to "src" "dst" [lockPath "src", specPath "src"]).1 ∧
    specPath "dst" ∈ (hardlink_to "src" "dst" [lockPath "src", specPath "src"]).1 :=
  (claim_C2_hardlink_all_or_nothing "src" "dst" [lockPath "src", specPath "src"]).1
    (by decide)

/-- Claim C3: on the scripted response sequence `authorization_pending,
authorization_pending, slow_down, token` the poller sleeps `interval,
interval, interval + 5` and then succeeds with the final token
overwriting the cache file, whatever it held before; and (second
conjunct) the 5-second increment is never folded back into `interval`:
three consecutive `slow_down` responses each sleep the same
`interval + 5`. -/
theorem claim_C3_device_flow_polling (interval : Nat) (tok : String) (file0 : Option String) :
    poll_for_token interval
      [TokenResp.err "authorization_pending", TokenResp.err "authorization_pending",
       TokenResp.err "slow_down", TokenResp.success (some tok)] [] file0 =
      ([interval, interval, interval + 5], some tok, PollOutcome.ok) ∧
    poll_for_token interval
      [TokenResp.err "slow_down", TokenResp.err "slow_down", TokenResp.err "slow_down",
       TokenResp.success (some tok)] [] file0 =
      ([interval + 5, interval + 5, interval + 5], some tok, PollOutcome.ok) :=
  ⟨rfl, rfl⟩

/-- Counterexample to claim C5 as stated: the code never inspects the
HTTP status, so a non-2xx response whose JSON body is a string map
containing a `name` key yields `Ok(true)` even though 404 is not a
2xx status. -/
theorem claim_C5_counterexample :
    is_existing_lockspec 404 (Json.obj [("name", Json.str "env1")]) = Except.ok true ∧
    ¬ (200 ≤ 404 ∧ 404 < 300) :=
  ⟨rfl, by decide⟩

/-- Claim C5 (amended): `is_existing_lockspec` ignores the HTTP status
entirely (the result is the same function of the body for any two
statuses); whenever the body deserializes as a string-valued object it
returns `Ok` of whether a `name` key is present; and on GitHub's
"repository not found" body it returns `Ok false`, not an error. -/
theorem claim_C5_exists_check (status status2 : Nat) (body : Json) :
    is_existing_lockspec status body = is_existing_lockspec status2 body ∧
    (∀ m, asStringMap body = some m →
      is_existing_lockspec status body = Except.ok (m.any (fun kv => kv.1 == "name"))) ∧
    is_existing_lockspec status githubNotFoundBody = Except.ok false := by
  refine ⟨rfl, ?_, rfl⟩
  intro m h
  simp [is_existing_lockspec, h]

/-- Witness for C5 at a concrete response: a body that is a string map
with a `name` key gives `Ok true`. -/
theorem claim_C5_witness :
    is_existing_lockspec 200 (Json.obj [("name", Json.str "env1")]) = Except.ok true :=
  (claim_C5_exists_check 200 200 (Json.obj [("name", Json.str "env1")])).2.1
    [("name", "env1")] rfl

theorem run_credentials_tried_failures (reqs : List CredReq) :
    ∀ x ∈ run_credentials true reqs, isAgent x = false := by
  induction reqs with
  | nil => simp [run_credentials]
  | cons r rest ih =>
    intro x hx
    cases hu : r.username_from_url with
    | none =>
      simp only [run_credentials, credentials_callback, hu] at hx
      rcases List.mem_cons.mp hx with h | h
      · rw [h]; rfl
      · exact ih x h
    | some u =>
      simp only [run_credentials, credentials_callback, hu, if_pos rfl] at hx
      rcases List.mem_cons.mp hx with h | h
      · rw [h]; rfl
      · exact ih x h

theorem agentAttempts_tried_zero (reqs : List CredReq) :
    agentAttempts (run_credentials true reqs) = 0 := by
  unfold agentAttempts
  rw [List.filter_eq_nil_iff.mpr]
  · rfl
  · intro x hx
    simp [run_credentials_tried_failures reqs x hx]

theorem agentAttempts_cons_failure (m : String) (l : List CredResult) :
    agentAttempts (CredResult.failure m :: l) = agentAttempts l := by
  simp [agentAttempts, List.filter_cons, isAgent]

theorem agentAttempts_cons_agent (u : String) (l : List CredResult) :
    agentAttempts (CredResult.agent u :: l) = agentAttempts l + 1 := by
  simp [agentAttempts, List.filter_cons, isAgent]

/-- Claim C8: within one clone the credential callback attempts
ssh-agent authentication at most once.  First conjunct: over any
request sequence at most one agent credential is ever produced.  Second
conjunct: the first request that carries a username and asks for an ssh
key produces the single agent attempt, and every result after it is a
failure (no retry).  Third conjunct: a non-ssh-key request yields a
failure, never an agent credential or a fallback method. -/
theorem claim_C8_agent_once (reqs : List CredReq) :
    agentAttempts (run_credentials false reqs) ≤ 1 ∧
    (∀ u (r : CredReq) rest, r.username_from_url = some u → r.is_ssh_key = true →
      run_credentials false (r :: rest) =
        CredResult.agent u :: run_credentials true rest ∧
      ∀ x ∈ run_credentials true rest, isAgent x = false) ∧
    (∀ (r : CredReq) rest, r.is_ssh_key = false →
      run_credentials false (r :: rest) =
        (credentials_callback false r).2 :: run_credentials false rest ∧
      isAgent (credentials_callback false r).2 = false) := by
  refine ⟨?_, ?_, ?_⟩
  · induction reqs with
    | nil => simp [run_credentials, agentAttempts]
    | cons r rest ih =>
      cases hu : r.username_from_url with
      | none =>
        have hrun : run_credentials false (r :: rest) =
            CredResult.failure "Unable to get the ssh username from the URL." ::
              run_credentials false rest := by
          simp [run_credentials, credentials_callback, hu]
        rw [hrun, agentAttempts_cons_failure]
        exact ih
      | some u =>
        by_cases hssh : r.is_ssh_key
        · have hrun : run_credentials false (r :: rest) =
              CredResult.agent u :: run_credentials true rest := by
            simp [run_credentials, credentials_callback, hu, hssh]
          rw [hrun, agentAttempts_cons_agent, agentAttempts_tried_zero]
        · have hrun : run_credentials false (r :: rest) =
              CredResult.failure "araki only supports ssh for git interactions." ::
                run_credentials false rest := by
            simp [run_credentials, credentials_callback, hu, hssh]
          rw [hrun, agentAttempts_cons_failure]
          exact ih
  · intro u r rest hu hssh
    refine ⟨?_, run_credentials_tried_failures rest⟩
    simp [run_credentials, credentials_callback, hu, hssh]
  · intro r rest hssh
    constructor
    · cases hu : r.username_from_url <;>
        simp [run_credentials, credentials_callback, hu, hssh]
    · cases hu : r.username_from_url <;> simp [credentials_callback, hu, hssh, isAgent]

/-- Witness for C8 at a concrete clone: two ssh-key requests with
username `git`; the first produces the single agent attempt and the
second is a failure. -/
theorem claim_C8_witness :
    run_credentials false [⟨some "git", true⟩, ⟨some "git", true⟩] =
      CredResult.agent "git" :: run_credentials true [⟨some "git", true⟩] :=
  ((claim_C8_agent_once []).2.1 "git" ⟨some "git", true⟩ [⟨some "git", true⟩]
    rfl rfl).1

/-- Claim C9: `from_env_name` always (re-)creates the catalog root as a
side effect of `get_default_araki_envs_dir`, and changes nothing else:
the resulting state is exactly the input state with `rootExists` set,
even when the lookup then fails because the environment is absent;
`from_directory` performs no writes at all. -/
theorem claim_C9_from_env_name_creates_root (fs : AFS) (name : String) :
    (from_env_name name fs).1 = { fs with rootExists := true } ∧
    (catalogLookup name fs = none →
      from_env_name name fs =
        ({ fs with rootExists := true }, Except.error (noEnvMsg name))) ∧
    (∀ fs2 : AFS, (from_directory_cwd fs2).1 = fs2) := by
  refine ⟨?_, ?_, fun fs2 => rfl⟩
  · unfold from_env_name get_default_araki_envs_dir
    cases h : catalogLookup name { fs with rootExists := true } with
    | none => simp [h]
    | some e => by_cases hf : files_exist e <;> simp [h, hf]
  · intro h
    have h2 : catalogLookup name { fs with rootExists := true } = none := h
    simp [from_env_name, get_default_araki_envs_dir, h2]

/-- Witness for C9: resolving a name against an empty catalog with a
missing root creates the root and fails the lookup. -/
theorem claim_C9_witness :
    from_env_name "env1" ⟨false, [], true, false, false⟩ =
      (⟨true, [], true, false, false⟩, Except.error (noEnvMsg "env1")) :=
  (claim_C9_from_env_name_creates_root ⟨false, [], true, false, false⟩ "env1").2.1 rfl

/-- Claim C10: `remove_files` deletes the spec file first and the lock
file second, returning on the first non-`NotFound` error.  First
conjunct: a non-`NotFound` failure on the spec file returns immediately
with the filesystem — in particular the lock file — untouched.  Second
conjunct: a non-`NotFound` failure on the lock file still leaves the
spec file already removed, exhibiting the order.  Third conjunct:
without faults both files are removed and already-absent files are
treated as success (erasing an absent path is a no-op). -/
theorem claim_C10_remove_files_order (fault : String → Option IOErr) (dir : String) (fs : FS) :
    (∀ k, fault (specPath dir) = some k → k ≠ IOErr.notFound →
      remove_files fault dir fs = (fs, some k)) ∧
    (∀ k, fault (specPath dir) = none → fault (lockPath dir) = some k →
      k ≠ IOErr.notFound →
      remove_files fault dir fs = (fs.erase (specPath dir), some k)) ∧
    (fault (specPath dir) = none → fault (lockPath dir) = none →
      remove_files fault dir fs = ((fs.erase (specPath dir)).erase (lockPath dir), none)) := by
  refine ⟨?_, ?_, ?_⟩
  · intro k hk hne
    simp [remove_files, remove_file_f, hk, if_neg hne]
  · intro k hs hk hne
    by_cases hmem : specPath dir ∈ fs
    · simp [remove_files, remove_file_f, remove_file, remove_lock_file, hs, hk,
        if_neg hne, hmem]
    · simp [remove_files, remove_file_f, remove_file, remove_lock_file, hs, hk,
        if_neg hne, hmem, List.erase_of_not_mem hmem]
  · intro hs hl
    by_cases hmem : specPath dir ∈ fs <;>
      by_cases hmem2 : lockPath dir ∈ fs.erase (specPath dir)
    · simp [remove_files, remove_file_f, remove_file, remove_lock_file, hs, hl, hmem, hmem2]
    · simp [remove_files, remove_file_f, remove_file, remove_lock_file, hs, hl, hmem, hmem2,
        List.erase_of_not_mem hmem2]
    · have h3 : lockPath dir ∈ fs := by
        rw [List.erase_of_not_mem hmem] at hmem2; exact hmem2
      simp [remove_files, remove_file_f, remove_file, remove_lock_file, hs, hl, hmem, h3,
        List.erase_of_not_mem hmem]
    · have h3 : lockPath dir ∉ fs := by
        rw [List.erase_of_not_mem hmem] at hmem2; exact hmem2
      simp [remove_files, remove_file_f, remove_file, remove_lock_file, hs, hl, hmem, h3,
        List.erase_of_not_mem hmem, List.erase_of_not_mem h3]

/-- Witness for C10: a permission failure on the spec file leaves both
files in place and surfaces the error. -/
theorem claim_C10_witness :
    remove_files (fun p => if p = specPath "d" then some IOErr.permissionDenied else none)
      "d" [specPath "d", lockPath "d"] =
      ([specPath "d", lockPath "d"], some IOErr.permissionDenied) :=
  (claim_C10_remove_files_order
      (fun p => if p = specPath "d" then some IOErr.permissionDenied else none)
      "d" [specPath "d", lockPath "d"]).1 IOErr.permissionDenied (by decide) (by decide)

theorem lookup_append_of_none {β : Type} (k : String) (l1 l2 : List (String × β))
    (h : l1.lookup k = none) : (l1 ++ l2).lookup k = l2.lookup k := by
  induction l1 with
  | nil => rfl
  | cons p tl ih =>
    rw [List.cons_append, List.lookup_cons]
    rw [List.lookup_cons] at h
    cases hb : (k == p.1) with
    | true => rw [hb] at h; simp at h
    | false =>
      rw [hb] at h
      simpa [hb] using ih h

/-- Claim C6: `ensure_araki_metadata` is idempotent.  With a
round-tripping parse/serialize pair (modelling the `toml` crate) and a
parseable spec file, the first call returns contents `c1` and a second
call — with the same or a different name — returns `c1` unchanged
(byte-identical); moreover a file already carrying the `araki` block is
never rewritten (`c1` is the original contents). -/
theorem claim_C6_ensure_metadata_idempotent {α : Type}
    (parse : α → Option (List (String × TomlVal))) (dump : List (String × TomlVal) → α)
    (roundtrip : ∀ u, parse (dump u) = some u)
    (contents : α) (t : List (String × TomlVal)) (hparse : parse contents = some t)
    (name1 name2 : String) :
    ∃ c1, ensure_araki_metadata parse dump contents name1 = Except.ok c1 ∧
      ensure_araki_metadata parse dump c1 name2 = Except.ok c1 ∧
      ((t.lookup "araki").isSome → c1 = contents) := by
  by_cases h : (t.lookup "araki").isSome
  · refine ⟨contents, ?_, ?_, fun _ => rfl⟩ <;>
      simp [ensure_araki_metadata, hparse, h]
  · have hnone : t.lookup "araki" = none := Option.not_isSome_iff_eq_none.mp h
    refine ⟨dump (t ++ [("araki", TomlVal.table [("lockspec_name", TomlVal.str name1)])]),
      ?_, ?_, fun hc => absurd hc h⟩
    · simp [ensure_araki_metadata, hparse, h]
    · have h2 : (t ++ [("araki", TomlVal.table [("lockspec_name", TomlVal.str name1)])]).lookup
          "araki" = some (TomlVal.table [("lockspec_name", TomlVal.str name1)]) := by
        rw [lookup_append_of_none "araki" t _ hnone]
        simp [List.lookup_cons]
      simp [ensure_araki_metadata, roundtrip, h2]

/-- Witness for C6: stamping a one-key table twice under two different
names; the second call changes nothing. -/
theorem claim_C6_witness :
    ∃ c1, ensure_araki_metadata (fun t => some t) id
        [("project", TomlVal.str "x")] "name-a" = Except.ok c1 ∧
      ensure_araki_metadata (fun t => some t) id c1 "name-b" = Except.ok c1 ∧
      (([("project", TomlVal.str "x")].lookup "araki").isSome →
        c1 = [("project", TomlVal.str "x")]) :=
  claim_C6_ensure_metadata_idempotent (fun t => some t) id (fun _ => rfl)
    [("project", TomlVal.str "x")] [("project", TomlVal.str "x")] rfl "name-a" "name-b"

/-- Claim C7: parsing `acme/env1` with the get-command parser yields
org `acme`, name `env1` and no host/scheme captures; the point-of-use
defaults are `github.com` and `https://`; and the SSH rendering is
exactly `git@github.com:acme/env1.git`. -/
theorem claim_C7_acme_env1 :
    Get.parse_repo_arg "acme/env1" =
      Except.ok { org := some "acme", repo := "env1", domain := none, protocol := none } ∧
    Get.RemoteRepo.get_domain
      { org := some "acme", repo := "env1", domain := none, protocol := none } =
        "github.com" ∧
    Get.RemoteRepo.get_protocol
      { org := some "acme", repo := "env1", domain := none, protocol := none } =
        "https://" ∧
    Get.RemoteRepo.as_ssh_url
      { org := some "acme", repo := "env1", domain := none, protocol := none } =
        "git@github.com:acme/env1.git" := by
  refine ⟨rfl, rfl, rfl, by decide⟩

/-- Claim C1: when the `pixi install` stage fails, the `get` run exits
with status 1 and cleans up exactly what it created.  First conjunct
(fresh clone): the final state is the initial state with only the
catalog root marked existing — the cloned catalog entry is gone again,
the two linked working-directory files are gone, and the working
directory itself (`cwdDirExists`) is untouched.  Second conjunct (no
clone): the pre-existing catalog entry is kept, and only the two
working-directory files are removed. -/
theorem claim_C1_install_failure_cleanup (arg : String) (fs : AFS) (env : ExecEnv)
    (remote : Get.RemoteRepo)
    (hparse : Get.parse_repo_arg arg = Except.ok remote)
    (htoml : fs.cwdToml = false) (hlock : fs.cwdLock = false)
    (hinstall : env.install_ok = false) :
    (remote.repo ∉ fs.catalog.map (fun e => e.1) →
      env.clone_ok = true → env.clone_result = ⟨true, true⟩ →
      execute arg fs env = ({ fs with rootExists := true }, some 1)) ∧
    (∀ e, remote.repo ∈ fs.catalog.map (fun e => e.1) →
      fs.catalog.lookup remote.repo = some e → files_exist e = true →
      execute arg fs env = ({ fs with rootExists := true }, some 1)) := by
  obtain ⟨root, cat, cwdDir, ct, cl⟩ := fs
  obtain ⟨cok, cres, iok⟩ := env
  simp only at htoml hlock hinstall
  subst htoml hlock hinstall
  constructor
  · intro hcont hclone hres
    simp only at hcont hclone hres
    subst hclone hres
    simp [execute, hparse, get_default_araki_envs_dir, get_local_envs,
      Get.RemoteRepo.get_repo, hcont, from_env_name, catalogLookup,
      List.lookup_cons, files_exist, hardlink_entry_to_cwd, catalogErase,
      remove_files_cwd]
  · intro e hcont hlook hfiles
    simp only at hcont hlook
    have hl : e.lock = true := by
      simp [files_exist] at hfiles
      exact hfiles.1
    have ht : e.toml = true := by
      simp [files_exist] at hfiles
      exact hfiles.2
    simp [execute, hparse, get_default_araki_envs_dir, get_local_envs,
      Get.RemoteRepo.get_repo, hcont, from_env_name, catalogLookup, hlook,
      hfiles, hardlink_entry_to_cwd, hl, ht, remove_files_cwd]

/-- Witness for C1: a fresh-clone run with a failing installer over an
empty catalog ends with the root created, no catalog entry, the
working-directory files absent, and exit status 1. -/
theorem claim_C1_witness :
    execute "acme/env1"
      { rootExists := false, catalog := [], cwdDirExists := true,
        cwdToml := false, cwdLock := false }
      { clone_ok := true, clone_result := ⟨true, true⟩, install_ok := false } =
      ({ rootExists := true, catalog := [], cwdDirExists := true,
         cwdToml := false, cwdLock := false }, some 1) :=
  (claim_C1_install_failure_cleanup "acme/env1"
      { rootExists := false, catalog := [], cwdDirExists := true,
        cwdToml := false, cwdLock := false }
      { clone_ok := true, clone_result := ⟨true, true⟩, install_ok := false }
      { org := some "acme", repo := "env1", domain := none, protocol := none }
      rfl rfl rfl rfl).1 (by decide) rfl rfl

/-! Infrastructure for the parser proofs (claim C4): behavior of the
greedy runs, the literal stripper, and the leftmost search on inputs
built from class-characters and `/` separators. -/

def notSlash (c : Char) : Bool := c != '/'

theorem mk_data (s : String) : String.mk s.data = s := by
  cases s
  rfl

theorem data_slash_append (a b : String) :
    (a ++ "/" ++ b).data = a.data ++ '/' :: b.data := by
  simp [String.data_append]

theorem classRun_all (p : Char → Bool) (xs : List Char)
    (h : ∀ c ∈ xs, p c = true) : classRun p xs = (xs, []) := by
  induction xs with
  | nil => rfl
  | cons c tl ih =>
    have hc := h c (List.mem_cons_self c tl)
    simp [classRun, hc, ih (fun x hx => h x (List.mem_cons_of_mem c hx))]

theorem classRun_stop (p : Char → Bool) (xs : List Char) (y : Char) (ys : List Char)
    (h : ∀ c ∈ xs, p c = true) (hy : p y = false) :
    classRun p (xs ++ y :: ys) = (xs, y :: ys) := by
  induction xs with
  | nil => simp [classRun, hy]
  | cons c tl ih =>
    have hc := h c (List.mem_cons_self c tl)
    simp [classRun, hc, ih (fun x hx => h x (List.mem_cons_of_mem c hx))]

theorem takeWhile_stop (p : Char → Bool) (l1 l2 : List Char) (y : Char)
    (h1 : ∀ c ∈ l1, p c = true) (hy : p y = false) :
    ((l1 ++ y :: l2).takeWhile p) = l1 := by
  induction l1 with
  | nil => simp [List.takeWhile_cons, hy]
  | cons c tl ih =>
    have hc := h1 c (List.mem_cons_self c tl)
    simp [List.takeWhile_cons, hc,
      ih (fun x hx => h1 x (List.mem_cons_of_mem c hx))]

theorem chomp_sound : ∀ (pre s rest : List Char), chomp pre s = some rest → s = pre ++ rest := by
  intro pre
  induction pre with
  | nil =>
    intro s rest h
    simp [chomp] at h
    simp [h]
  | cons q qs ih =>
    intro s rest h
    cases s with
    | nil => simp [chomp] at h
    | cons c cs =>
      by_cases hc : c = q
      · subst hc
        simp [chomp] at h
        rw [List.cons_append, ← ih cs rest h]
      · simp [chomp, hc] at h

theorem chomp_append : ∀ (pre rest : List Char), chomp pre (pre ++ rest) = some rest := by
  intro pre
  induction pre with
  | nil => intro rest; rfl
  | cons q qs ih => intro rest; simp [chomp, ih]

theorem all_notSlash_of_class (p : Char → Bool) (hps : p '/' = false)
    (l : List Char) (hl : ∀ c ∈ l, p c = true) : ∀ c ∈ l, notSlash c = true := by
  intro c hc
  by_cases h : c = '/'
  · subst h
    rw [hl '/' hc] at hps
    exact Bool.noConfusion hps
  · simp [notSlash, h]

/-- If chomping a literal containing a `/` succeeds on an input whose
characters up to the first `/` are `org`, then `org` equals the
literal's own pre-`/` prefix. -/
theorem chomp_pre_eq (pre1 pre2 org tl rest : List Char)
    (h : chomp (pre1 ++ '/' :: pre2) (org ++ '/' :: tl) = some rest)
    (hp1 : ∀ c ∈ pre1, notSlash c = true)
    (ho : ∀ c ∈ org, notSlash c = true) :
    org = pre1 := by
  have heq := chomp_sound _ _ _ h
  have h1 : ((org ++ '/' :: tl).takeWhile notSlash) = org :=
    takeWhile_stop notSlash org tl '/' ho (by decide)
  have h2 : (((pre1 ++ '/' :: pre2) ++ rest).takeWhile notSlash) = pre1 := by
    rw [List.append_assoc, List.cons_append]
    exact takeWhile_stop notSlash pre1 (pre2 ++ rest) '/' hp1 (by decide)
  rw [heq] at h1
  rw [h1] at h2
  exact h2

theorem chomp_slash_lit_none (lit : String) (pre1 pre2 org tl : List Char)
    (hsplit : lit.data = pre1 ++ '/' :: pre2)
    (hp1 : ∀ c ∈ pre1, notSlash c = true)
    (ho : ∀ c ∈ org, notSlash c = true)
    (hne : org ≠ pre1) :
    chomp lit.data (org ++ '/' :: tl) = none := by
  rw [hsplit]
  cases h : chomp (pre1 ++ '/' :: pre2) (org ++ '/' :: tl) with
  | none => rfl
  | some rest => exact absurd (chomp_pre_eq pre1 pre2 org tl rest h hp1 ho) hne

theorem chomp_slash_lit_none_all_class (p : Char → Bool) (lit : String) (xs : List Char)
    (hpre : '/' ∈ lit.data) (hp : p '/' = false) (hxs : ∀ c ∈ xs, p c = true) :
    chomp lit.data xs = none := by
  cases h : chomp lit.data xs with
  | none => rfl
  | some rest =>
    have heq := chomp_sound _ _ _ h
    have hsl : '/' ∈ xs := heq ▸ List.mem_append.mpr (Or.inl hpre)
    have := hxs '/' hsl
    rw [this] at hp
    exact Bool.noConfusion hp

theorem ne_of_bad_char (p : Char → Bool) (org pre1 : List Char) (c : Char)
    (hc : c ∈ pre1) (hpc : p c = false) (ho : ∀ x ∈ org, p x = true) : org ≠ pre1 := by
  intro heq
  have h1 := ho c (heq ▸ hc)
  rw [h1] at hpc
  exact Bool.noConfusion hpc

theorem findMatch_of_head (f : List Char → Option Caps) (l : List Char) (caps : Caps)
    (h1 : l ≠ []) (h2 : f l = some caps) : findMatch f l = some caps := by
  cases l with
  | nil => exact absurd rfl h1
  | cons c cs => simp [findMatch, h2]

theorem tryOpts_cons_none (tail : List Char → Option (Option String × String))
    (lit : String) (pr dom : Option String)
    (rest : List (String × Option String × Option String)) (cs : List Char)
    (h : chomp lit.data cs = none) :
    tryOpts tail ((lit, pr, dom) :: rest) cs = tryOpts tail rest cs := by
  simp [tryOpts, h]

theorem tryOpts_cons_some (tail : List Char → Option (Option String × String))
    (lit : String) (pr dom : Option String)
    (rest : List (String × Option String × Option String)) (cs cs2 : List Char)
    (r : Option String × String)
    (hc : chomp lit.data cs = some cs2) (ht : tail cs2 = some r) :
    tryOpts tail ((lit, pr, dom) :: rest) cs = some ⟨pr, dom, r.1, r.2⟩ := by
  simp [tryOpts, hc, ht]

theorem tryOpts_nil (tail : List Char → Option (Option String × String)) (cs : List Char) :
    tryOpts tail [] cs = (tail cs).map (fun r => ⟨none, none, r.1, r.2⟩) := rfl

theorem prefixOpts_eq : prefixOpts =
    [("git+https://github.com/", some "git+https://", some "github.com"),
     ("git+http://github.com/", some "git+http://", some "github.com"),
     ("https://github.com/", some "https://", some "github.com"),
     ("http://github.com/", some "http://", some "github.com"),
     ("github.com/", none, some "github.com")] := rfl

theorem clone_tail_org_name (org name : String)
    (ho1 : org.data ≠ []) (ho2 : org.data.length ≤ 100)
    (ho3 : ∀ c ∈ org.data, isRepoChar c = true)
    (hn1 : name.data ≠ []) (hn2 : name.data.length ≤ 100)
    (hn3 : ∀ c ∈ name.data, isRepoChar c = true) :
    Clone.tailMatch (org.data ++ '/' :: name.data) = some (some org, name) := by
  have hol : 1 ≤ org.data.length := List.length_pos.mpr ho1
  have hnl : 1 ≤ name.data.length := List.length_pos.mpr hn1
  simp only [Clone.tailMatch,
    classRun_stop isRepoChar org.data '/' name.data ho3 (by decide),
    classRun_all isRepoChar name.data hn3]
  rw [if_pos ⟨hol, ho2⟩, if_pos ⟨hnl, hn2⟩, mk_data, mk_data]

theorem clone_tail_bare (name : String)
    (hn1 : name.data ≠ []) (hn2 : name.data.length ≤ 100)
    (hn3 : ∀ c ∈ name.data, isRepoChar c = true) :
    Clone.tailMatch name.data = some (none, name) := by
  have hnl : 1 ≤ name.data.length := List.length_pos.mpr hn1
  simp only [Clone.tailMatch, classRun_all isRepoChar name.data hn3]
  rw [if_pos ⟨hnl, hn2⟩, mk_data]

theorem get_tail_org_name (org name : String)
    (ho1 : org.data ≠ []) (ho3 : ∀ c ∈ org.data, isWordChar c = true)
    (hn1 : name.data ≠ []) (hn3 : ∀ c ∈ name.data, isWordChar c = true) :
    Get.tailMatch (org.data ++ '/' :: name.data) = some (some org, name) := by
  have hol : org.data.length ≠ 0 := Nat.pos_iff_ne_zero.mp (List.length_pos.mpr ho1)
  have hnl : name.data.length ≠ 0 := Nat.pos_iff_ne_zero.mp (List.length_pos.mpr hn1)
  simp only [Get.tailMatch,
    classRun_stop isWordChar org.data '/' name.data ho3 (by decide),
    classRun_all isWordChar name.data hn3]
  rw [if_neg hol, if_neg hnl, mk_data, mk_data]

theorem clone_parse_bare (name : String)
    (hn1 : name.data ≠ []) (hn2 : name.data.length ≤ 100)
    (hn3 : ∀ c ∈ name.data, isRepoChar c = true) :
    Clone.parse_repo_arg name = Except.ok ⟨none, name, none, none⟩ := by
  have h1 := chomp_slash_lit_none_all_class isRepoChar "git+https://github.com/" name.data
    (by decide) (by decide) hn3
  have h2 := chomp_slash_lit_none_all_class isRepoChar "git+http://github.com/" name.data
    (by decide) (by decide) hn3
  have h3 := chomp_slash_lit_none_all_class isRepoChar "https://github.com/" name.data
    (by decide) (by decide) hn3
  have h4 := chomp_slash_lit_none_all_class isRepoChar "http://github.com/" name.data
    (by decide) (by decide) hn3
  have h5 := chomp_slash_lit_none_all_class isRepoChar "github.com/" name.data
    (by decide) (by decide) hn3
  have htry : tryOpts Clone.tailMatch prefixOpts name.data =
      some ⟨none, none, none, name⟩ := by
    rw [prefixOpts_eq, tryOpts_cons_none _ _ _ _ _ _ h1, tryOpts_cons_none _ _ _ _ _ _ h2,
      tryOpts_cons_none _ _ _ _ _ _ h3, tryOpts_cons_none _ _ _ _ _ _ h4,
      tryOpts_cons_none _ _ _ _ _ _ h5, tryOpts_nil, clone_tail_bare name hn1 hn2 hn3]
    rfl
  unfold Clone.parse_repo_arg
  rw [findMatch_of_head _ name.data ⟨none, none, none, name⟩ hn1 htry]

theorem clone_parse_org_name (org name : String)
    (ho1 : org.data ≠ []) (ho2 : org.data.length ≤ 100)
    (ho3 : ∀ c ∈ org.data, isRepoChar c = true)
    (hn1 : name.data ≠ []) (hn2 : name.data.length ≤ 100)
    (hn3 : ∀ c ∈ name.data, isRepoChar c = true)
    (hne : org ≠ "github.com") :
    Clone.parse_repo_arg (org ++ "/" ++ name) =
      Except.ok ⟨some org, name, none, none⟩ := by
  have hns : ∀ c ∈ org.data, notSlash c = true :=
    all_notSlash_of_class isRepoChar (by decide) org.data ho3
  have hnedata : org.data ≠ "github.com".data := by
    intro h
    exact hne (by rw [← mk_data org, h, mk_data])
  have h1 := chomp_slash_lit_none "git+https://github.com/" "git+https:".data
    "/github.com/".data org.data name.data (by decide) (by decide) hns
    (ne_of_bad_char isRepoChar org.data "git+https:".data ':' (by decide) (by decide) ho3)
  have h2 := chomp_slash_lit_none "git+http://github.com/" "git+http:".data
    "/github.com/".data org.data name.data (by decide) (by decide) hns
    (ne_of_bad_char isRepoChar org.data "git+http:".data ':' (by decide) (by decide) ho3)
  have h3 := chomp_slash_lit_none "https://github.com/" "https:".data
    "/github.com/".data org.data name.data (by decide) (by decide) hns
    (ne_of_bad_char isRepoChar org.data "https:".data ':' (by decide) (by decide) ho3)
  have h4 := chomp_slash_lit_none "http://github.com/" "http:".data
    "/github.com/".data org.data name.data (by decide) (by decide) hns
    (ne_of_bad_char isRepoChar org.data "http:".data ':' (by decide) (by decide) ho3)
  have h5 := chomp_slash_lit_none "github.com/" "github.com".data
    [] org.data name.data (by decide) (by decide) hns hnedata
  have htail := clone_tail_org_name org name ho1 ho2 ho3 hn1 hn2 hn3
  have htry : tryOpts Clone.tailMatch prefixOpts (org.data ++ '/' :: name.data) =
      some ⟨none, none, some org, name⟩ := by
    rw [prefixOpts_eq, tryOpts_cons_none _ _ _ _ _ _ h1, tryOpts_cons_none _ _ _ _ _ _ h2,
      tryOpts_cons_none _ _ _ _ _ _ h3, tryOpts_cons_none _ _ _ _ _ _ h4,
      tryOpts_cons_none _ _ _ _ _ _ h5, tryOpts_nil, htail]
    rfl
  unfold Clone.parse_repo_arg
  rw [data_slash_append org name,
    findMatch_of_head _ _ ⟨none, none, some org, name⟩ (by simp) htry]

theorem clone_parse_https (org name : String)
    (ho1 : org.data ≠ []) (ho2 : org.data.length ≤ 100)
    (ho3 : ∀ c ∈ org.data, isRepoChar c = true)
    (hn1 : name.data ≠ []) (hn2 : name.data.length ≤ 100)
    (hn3 : ∀ c ∈ name.data, isRepoChar c = true) :
    Clone.parse_repo_arg ("https://github.com/" ++ org ++ "/" ++ name) =
      Except.ok ⟨some org, name, some "https://", some "github.com"⟩ := by
  have hdata : ("https://github.com/" ++ org ++ "/" ++ name).data =
      "https://github.com/".data ++ (org.data ++ '/' :: name.data) := by
    simp [String.data_append]
  have hI : "https://github.com/".data ++ (org.data ++ '/' :: name.data) =
      "https:".data ++ '/' :: ("/github.com/".data ++ (org.data ++ '/' :: name.data)) := by
    rw [show ("https://github.com/".data : List Char) =
        "https:".data ++ '/' :: "/github.com/".data by decide]
    simp
  have h1 : chomp "git+https://github.com/".data
      ("https://github.com/".data ++ (org.data ++ '/' :: name.data)) = none := by
    rw [hI]
    exact chomp_slash_lit_none "git+https://github.com/" "git+https:".data
      "/github.com/".data "https:".data _ (by decide) (by decide) (by decide) (by decide)
  have h2 : chomp "git+http://github.com/".data
      ("https://github.com/".data ++ (org.data ++ '/' :: name.data)) = none := by
    rw [hI]
    exact chomp_slash_lit_none "git+http://github.com/" "git+http:".data
      "/github.com/".data "https:".data _ (by decide) (by decide) (by decide) (by decide)
  have h3 : chomp "https://github.com/".data
      ("https://github.com/".data ++ (org.data ++ '/' :: name.data)) =
      some (org.data ++ '/' :: name.data) := chomp_append _ _
  have htail := clone_tail_org_name org name ho1 ho2 ho3 hn1 hn2 hn3
  have htry : tryOpts Clone.tailMatch prefixOpts
      ("https://github.com/".data ++ (org.data ++ '/' :: name.data)) =
      some ⟨some "https://", some "github.com", some org, name⟩ := by
    rw [prefixOpts_eq, tryOpts_cons_none _ _ _ _ _ _ h1, tryOpts_cons_none _ _ _ _ _ _ h2,
      tryOpts_cons_some _ _ _ _ _ _ _ (some org, name) h3 htail]
  unfold Clone.parse_repo_arg
  rw [hdata, findMatch_of_head _ _ ⟨some "https://", some "github.com", some org, name⟩
    (by simp) htry]

theorem clone_parse_git_https (org name : String)
    (ho1 : org.data ≠ []) (ho2 : org.data.length ≤ 100)
    (ho3 : ∀ c ∈ org.data, isRepoChar c = true)
    (hn1 : name.data ≠ []) (hn2 : name.data.length ≤ 100)
    (hn3 : ∀ c ∈ name.data, isRepoChar c = true) :
    Clone.parse_repo_arg ("git+https://github.com/" ++ org ++ "/" ++ name) =
      Except.ok ⟨some org, name, some "git+https://", some "github.com"⟩ := by
  have hdata : ("git+https://github.com/" ++ org ++ "/" ++ name).data =
      "git+https://github.com/".data ++ (org.data ++ '/' :: name.data) := by
    simp [String.data_append]
  have h1 : chomp "git+https://github.com/".data
      ("git+https://github.com/".data ++ (org.data ++ '/' :: name.data)) =
      some (org.data ++ '/' :: name.data) := chomp_append _ _
  have htail := clone_tail_org_name org name ho1 ho2 ho3 hn1 hn2 hn3
  have htry : tryOpts Clone.tailMatch prefixOpts
      ("git+https://github.com/".data ++ (org.data ++ '/' :: name.data)) =
      some ⟨some "git+https://", some "github.com", some org, name⟩ := by
    rw [prefixOpts_eq, tryOpts_cons_some _ _ _ _ _ _ _ (some org, name) h1 htail]
  unfold Clone.parse_repo_arg
  rw [hdata, findMatch_of_head _ _
    ⟨some "git+https://", some "github.com", some org, name⟩ (by simp) htry]

theorem get_parse_org_name (org name : String)
    (ho1 : org.data ≠ []) (ho3 : ∀ c ∈ org.data, isWordChar c = true)
    (hn1 : name.data ≠ []) (hn3 : ∀ c ∈ name.data, isWordChar c = true) :
    Get.parse_repo_arg (org ++ "/" ++ name) =
      Except.ok { org := some org, repo := name, domain := none, protocol := none } := by
  have hns : ∀ c ∈ org.data, notSlash c = true :=
    all_notSlash_of_class isWordChar (by decide) org.data ho3
  have h1 := chomp_slash_lit_none "git+https://github.com/" "git+https:".data
    "/github.com/".data org.data name.data (by decide) (by decide) hns
    (ne_of_bad_char isWordChar org.data "git+https:".data ':' (by decide) (by decide) ho3)
  have h2 := chomp_slash_lit_none "git+http://github.com/" "git+http:".data
    "/github.com/".data org.data name.data (by decide) (by decide) hns
    (ne_of_bad_char isWordChar org.data "git+http:".data ':' (by decide) (by decide) ho3)
  have h3 := chomp_slash_lit_none "https://github.com/" "https:".data
    "/github.com/".data org.data name.data (by decide) (by decide) hns
    (ne_of_bad_char isWordChar org.data "https:".data ':' (by decide) (by decide) ho3)
  have h4 := chomp_slash_lit_none "http://github.com/" "http:".data
    "/github.com/".data org.data name.data (by decide) (by decide) hns
    (ne_of_bad_char isWordChar org.data "http:".data ':' (by decide) (by decide) ho3)
  have h5 := chomp_slash_lit_none "github.com/" "github.com".data
    [] org.data name.data (by decide) (by decide) hns
    (ne_of_bad_char isWordChar org.data "github.com".data '.' (by decide) (by decide) ho3)
  have htail := get_tail_org_name org name ho1 ho3 hn1 hn3
  have htry : tryOpts Get.tailMatch prefixOpts (org.data ++ '/' :: name.data) =
      some ⟨none, none, some org, name⟩ := by
    rw [prefixOpts_eq, tryOpts_cons_none _ _ _ _ _ _ h1, tryOpts_cons_none _ _ _ _ _ _ h2,
      tryOpts_cons_none _ _ _ _ _ _ h3, tryOpts_cons_none _ _ _ _ _ _ h4,
      tryOpts_cons_none _ _ _ _ _ _ h5, tryOpts_nil, htail]
    rfl
  unfold Get.parse_repo_arg
  rw [data_slash_append org name,
    findMatch_of_head _ _ ⟨none, none, some org, name⟩ (by simp) htry]

/-- Counterexample to claim C4 as stated.  The regex match is
unanchored on the left, so strings outside the four accepted shapes are
accepted rather than rejected: `foo bar` (a space is in neither
character class) parses successfully in both files.  And for the full
URL shape the clone-command parser does not recover the encoded tuple:
`RemoteRepo::new` is called with the protocol capture in the domain
position and vice versa, so the resulting value reports host
`https://` and scheme `github.com`. -/
theorem claim_C4_counterexample :
    Clone.parse_repo_arg "foo bar" = Except.ok ⟨none, "bar", none, none⟩ ∧
    Get.parse_repo_arg "foo bar" =
      Except.ok { org := none, repo := "foo", domain := none, protocol := none } ∧
    Clone.parse_repo_arg "https://github.com/acme/env1" =
      Except.ok ⟨some "acme", "env1", some "https://", some "github.com"⟩ ∧
    Clone.RemoteRepo.get_domain ⟨some "acme", "env1", some "https://", some "github.com"⟩ =
      "https://" ∧
    Clone.RemoteRepo.get_protocol ⟨some "acme", "env1", some "https://", some "github.com"⟩ =
      "github.com" :=
  ⟨rfl, rfl, rfl, rfl, rfl⟩

/-- Claim C4 (amended): for inputs that are exactly one of the four
accepted shapes over the parser's character class, parsing succeeds and
recovers the org and name captures; a bare `org/name` is recovered by
the clone parser provided `org` is not the literal `github.com` (which
is instead consumed as the domain); for the two URL shapes the clone
parser stores the scheme capture in the `domain` field and the host
capture in the `protocol` field (the constructor-argument swap); the
get parser (word-character class) recovers `org/name` with correctly
assigned fields.  Inputs outside the four shapes are not necessarily
rejected (see the counterexample). -/
theorem claim_C4_parse_shapes (org name : String)
    (ho1 : org.data ≠ []) (ho2 : org.data.length ≤ 100)
    (ho3 : ∀ c ∈ org.data, isRepoChar c = true)
    (hn1 : name.data ≠ []) (hn2 : name.data.length ≤ 100)
    (hn3 : ∀ c ∈ name.data, isRepoChar c = true) :
    Clone.parse_repo_arg name = Except.ok ⟨none, name, none, none⟩ ∧
    (org ≠ "github.com" →
      Clone.parse_repo_arg (org ++ "/" ++ name) =
        Except.ok ⟨some org, name, none, none⟩) ∧
    Clone.parse_repo_arg ("https://github.com/" ++ org ++ "/" ++ name) =
      Except.ok ⟨some org, name, some "https://", some "github.com"⟩ ∧
    Clone.parse_repo_arg ("git+https://github.com/" ++ org ++ "/" ++ name) =
      Except.ok ⟨some org, name, some "git+https://", some "github.com"⟩ ∧
    ((∀ c ∈ org.data, isWordChar c = true) → (∀ c ∈ name.data, isWordChar c = true) →
      Get.parse_repo_arg (org ++ "/" ++ name) =
        Except.ok { org := some org, repo := name, domain := none, protocol := none }) :=
  ⟨clone_parse_bare name hn1 hn2 hn3,
   fun hne => clone_parse_org_name org name ho1 ho2 ho3 hn1 hn2 hn3 hne,
   clone_parse_https org name ho1 ho2 ho3 hn1 hn2 hn3,
   clone_parse_git_https org name ho1 ho2 ho3 hn1 hn2 hn3,
   fun hw1 hw2 => get_parse_org_name org name ho1 hw1 hn1 hw2⟩

/-- Witness for C4 at a concrete org/name input. -/
theorem claim_C4_witness :
    Clone.parse_repo_arg ("acme" ++ "/" ++ "env1") =
      Except.ok ⟨some "acme", "env1", none, none⟩ :=
  (claim_C4_parse_shapes "acme" "env1" (by decide) (by decide) (by decide)
    (by decide) (by decide) (by decide)).2.1 (by decide)

end Araki
